import Mathlib

/-!
Verification of the trusty file-storage service.

This file gives a shallow embedding, in Lean 4, of the parts of the
program that the specification talks about: the file repository queries
(`src/filemanager.rs`), the upload pipeline, the pagination handler, the
download-filename sanitizer, the credential-store validation
(`src/user.rs`), the stats snapshot cache (`src/stats.rs`), and the
token-extraction and key-derivation code (`src/auth.rs`).  Pure Rust
functions become Lean functions; database tables become lists of rows;
the filesystem becomes an association list from paths to byte lists;
fallible external operations (multipart reads, disk writes, the database
insert) are parametrised by their outcome so that every control path of
the source is represented.  Machine integers are modelled by `Nat`/`Int`;
none of the modelled quantities can overflow `i64`/`usize` on the paths
considered.
-/

namespace Trusty

/-- Byte strings (Rust `&[u8]`, `Vec<u8>`, and the bodies of multipart
chunks) are lists of natural numbers below 256; only lengths and
equality matter to the claims, so the bound is not carried. -/
abbrev Bytes := List Nat

/-- The `FileError` enum of `src/filemanager.rs`. -/
inductive FileError where
  | databaseError
  | notFound
  | unauthorized
  | storageError
  | invalidMetadata
  | internalError
deriving DecidableEq, Repr

/-- A row of the `files` table (`struct File` in `src/filemanager.rs`). -/
structure FileRow where
  id : String
  user_id : String
  original_name : String
  mime_type : String
  size_bytes : Int
  storage_path : String
  created_at : String
deriving DecidableEq, Repr

/-- The client-supplied metadata part (`struct FileMetadata`): its
`size_bytes` is the *declared* size, advisory only. -/
structure FileMetadata where
  original_name : String
  mime_type : String
  size_bytes : Int
  client_encryption_algo : String
deriving DecidableEq, Repr

/-! ## File repository (`FileRepository` in `src/filemanager.rs`)

The `files` table is a list of rows; SQL `WHERE id = ? AND user_id = ?`
becomes a filter by the conjunction of the two equalities. -/

/-- `FileRepository::get_file`: `SELECT * FROM files WHERE id = ? AND
user_id = ?` with `fetch_optional`, i.e. the first row matching both the
id and the owner. -/
def getFile (db : List FileRow) (id user_id : String) : Option FileRow :=
  (db.filter fun r => r.id == id && r.user_id == user_id).head?

/-- `FileRepository::delete_file`: `DELETE FROM files WHERE id = ? AND
user_id = ?`; returns the surviving table together with
`rows_affected() > 0`. -/
def deleteFileRows (db : List FileRow) (id user_id : String) :
    List FileRow × Bool :=
  let keep := db.filter fun r => !(r.id == id && r.user_id == user_id)
  (keep, decide (keep.length < db.length))

/-- The ownership lookup shared by the `download_file` and `delete_file`
handlers: `get_file(...).ok_or(FileError::NotFound)?`.  A miss — which
includes every cross-owner access — surfaces as `NotFound`. -/
def lookupOwned (db : List FileRow) (id user_id : String) :
    Except FileError FileRow :=
  match getFile db id user_id with
  | none => .error .notFound
  | some f => .ok f

/-! ## Download filename sanitisation (`sanitize_filename`) -/

/-- Rust `char::is_control`: the Unicode `Cc` category,
`U+0000..=U+001F` and `U+007F..=U+009F`. -/
def rustIsControl (c : Char) : Bool :=
  c.toNat ≤ 0x1f || (0x7f ≤ c.toNat && c.toNat ≤ 0x9f)

/-- Rust `char::is_ascii`: code point at most `0x7F`. -/
def rustIsAscii (c : Char) : Bool :=
  c.toNat ≤ 0x7f

/-- The per-character test of `sanitize_filename`'s `filter_map`
closure: characters that are dropped outright. -/
def sanitizeDrops (c : Char) : Bool :=
  rustIsControl c || c == '\n' || c == '\r' || c == '\\' || c == '"'

/-- `sanitize_filename` of `src/filemanager.rs`, on the character
sequence of the input string: a `filter_map` dropping control/newline/
carriage-return/backslash/quote characters and mapping every remaining
non-ASCII character to `'_'`, then `take(255)`. -/
def sanitizeFilename (s : List Char) : List Char :=
  (s.filterMap fun c =>
    if sanitizeDrops c then none
    else if !(rustIsAscii c) then some '_'
    else some c).take 255

/-- The sanitizer as the spec's sentence words it: *remove* the bad
characters, then *replace* every non-ASCII character by an underscore,
then truncate to 255 characters.  Compared with `sanitizeFilename`,
which is translated from the source. -/
def specSanitizeFilename (s : List Char) : List Char :=
  (((s.filter fun c => !(sanitizeDrops c)).map
    fun c => if !(rustIsAscii c) then '_' else c).take 255)

/-! ## Credential store (`UserRepository::create_user` in `src/user.rs`)

Rust's `str::len` counts UTF-8 bytes, so usernames and passwords are
modelled as byte strings.  The external effects — the Argon2 hash and
the SQL insert — are parametrised by their outcomes, and the model also
returns the list of effects actually performed, in order, so that
"before any hashing or I/O" is provable. -/

/-- The `UserError` enum of `src/user.rs`. -/
inductive UserError where
  | databaseError
  | passwordHashError
  | usernameExists
  | userNotFound
  | invalidPassword
  | invalidUsername
deriving DecidableEq, Repr

/-- An external effect performed by `create_user`. -/
inductive CreateEffect where
  | hashPassword
  | dbInsert
deriving DecidableEq, Repr

/-- Outcome of the parametrised SQL `INSERT INTO users`: success, a
`UNIQUE` constraint violation, or another database error. -/
inductive InsertOutcome where
  | ok
  | uniqueViolation
  | otherError
deriving DecidableEq, Repr

/-- A row of the `users` table, as far as `create_user` builds it. -/
structure UserRow where
  id : String
  username : Bytes
  password_hash : String
  created_at : String
deriving DecidableEq, Repr

/-- `UserRepository::create_user`.  `hashOutcome` is the result of
`hash_password` (Argon2 with a random salt), `genId` the fresh UUID,
`now` the timestamp, and `insertOutcome` the result of the SQL insert;
the second component lists the effects performed, in program order. -/
def createUser (username password : Bytes) (hashOutcome : Option String)
    (genId now : String) (insertOutcome : InsertOutcome) :
    Except UserError UserRow × List CreateEffect :=
  if username.length < 3 || username.length > 50 then
    (.error .invalidUsername, [])
  else if password.length < 6 then
    (.error .invalidPassword, [])
  else
    match hashOutcome with
    | none => (.error .passwordHashError, [.hashPassword])
    | some password_hash =>
      match insertOutcome with
      | .ok => (.ok ⟨genId, username, password_hash, now⟩,
                [.hashPassword, .dbInsert])
      | .uniqueViolation => (.error .usernameExists, [.hashPassword, .dbInsert])
      | .otherError => (.error .databaseError, [.hashPassword, .dbInsert])

/-- The UTF-8 encoding of one character, as Rust `String` stores it:
the byte length is 1, 2, 3 or 4 depending on the code point, so
`str::len()` (bytes) and the character count diverge on non-ASCII
input. -/
def utf8Bytes (c : Char) : Bytes :=
  let n := c.toNat
  if n < 0x80 then [n]
  else if n < 0x800 then
    [0xc0 ||| (n >>> 6), 0x80 ||| (n &&& 0x3f)]
  else if n < 0x10000 then
    [0xe0 ||| (n >>> 12), 0x80 ||| ((n >>> 6) &&& 0x3f), 0x80 ||| (n &&& 0x3f)]
  else
    [0xf0 ||| (n >>> 18), 0x80 ||| ((n >>> 12) &&& 0x3f),
      0x80 ||| ((n >>> 6) &&& 0x3f), 0x80 ||| (n &&& 0x3f)]

/-- The UTF-8 byte string of a character sequence: what a Rust `&str`
holds, and what `username.len()` / `password.len()` measure. -/
def utf8Encode (s : List Char) : Bytes :=
  (s.map utf8Bytes).flatten

/-! ## Listing and pagination (`get_files_handler`, `list_files`,
`count_files`) -/

/-- ASCII lower-casing, the case folding SQLite's default `LIKE` applies
to ASCII letters. -/
def asciiLower (c : Char) : Char :=
  if 'A' ≤ c ∧ c ≤ 'Z' then Char.ofNat (c.toNat + 32) else c

/-- Whether `pat` occurs as a contiguous run inside `s`. -/
def containsRun (pat : List Char) : List Char → Bool
  | [] => pat.isEmpty
  | c :: rest => pat.isPrefixOf (c :: rest) || containsRun pat rest

/-- The SQL predicate `original_name LIKE '%q%'` (SQLite default:
ASCII-case-insensitive substring match).  Simplification: `%` and `_`
wildcards inside the user-supplied `q` are treated as literal
characters; the pagination claim needs only that the listing and the
count share this one predicate, which they do in the source (both build
the same `LIKE` clause). -/
def likeMatches (name q : String) : Bool :=
  containsRun (q.toList.map asciiLower) (name.toList.map asciiLower)

/-- The row filter shared by `list_files` and `count_files`:
`WHERE user_id = ?` plus, when a search string is given,
`AND original_name LIKE '%q%'`. -/
def rowMatches (user_id : String) (q : Option String) (r : FileRow) : Bool :=
  r.user_id == user_id &&
    (match q with
     | none => true
     | some qs => likeMatches r.original_name qs)

/-- The `ORDER BY` comparison of `list_files`: key per `sort`
(`"size"` → `size_bytes`, `"date"` → `created_at`, default →
`original_name`), ascending unless `direction = "desc"`. -/
def rowLE (sort direction : Option String) (a b : FileRow) : Bool :=
  let key := fun x y : FileRow =>
    match sort with
    | some "size" => decide (x.size_bytes ≤ y.size_bytes)
    | some "date" => decide (x.created_at ≤ y.created_at)
    | _ => decide (x.original_name ≤ y.original_name)
  match direction with
  | some "desc" => key b a
  | _ => key a b

/-- `FileRepository::list_files`: filter by owner and search, sort by
the requested key and direction, then `LIMIT page_size OFFSET
(page-1)*page_size`. -/
def listFiles (db : List FileRow) (user_id : String) (q sort direction : Option String)
    (page page_size : Int) : List FileRow :=
  let rows := (db.filter (rowMatches user_id q)).mergeSort (rowLE sort direction)
  ((rows.drop ((page - 1) * page_size).toNat).take page_size.toNat)

/-- `FileRepository::count_files`: `SELECT COUNT(*) FROM files` under
the same `WHERE` clause as `list_files`. -/
def countFiles (db : List FileRow) (user_id : String) (q : Option String) : Int :=
  ((db.filter (rowMatches user_id q)).length : Int)

/-- The `total_pages` computation of `get_files_handler`:
`(total as f64 / page_size as f64).ceil() as i64`.  For every reachable
`total` (a row count, far below `2^45`) and `page_size ∈ [1,100]` the
double-precision division followed by `ceil` is exact, so it is embedded
as the exact integer ceiling. -/
def totalPagesOf (total page_size : Int) : Int :=
  (total + page_size - 1) / page_size

/-- The query parameters of `GET /api/files` (`struct FileQuery`). -/
structure FileQuery where
  q : Option String
  sort : Option String
  direction : Option String
  page : Option Int
  page_size : Option Int

/-- The response body of `GET /api/files` (`struct FileListResponse`),
with rows in place of their public projections. -/
structure FileListResponse where
  files : List FileRow
  total : Int
  page : Int
  page_size : Int
  total_pages : Int

/-- `get_files_handler`: clamp `page` to at least 1 and `page_size`
into `[1,100]` (defaults 1 and 20), count under the search filter, list
the requested page, and report `total_pages`. -/
def getFilesHandler (db : List FileRow) (user_id : String) (query : FileQuery) :
    FileListResponse :=
  let page := max (query.page.getD 1) 1
  let page_size := min (max (query.page_size.getD 20) 1) 100
  let total := countFiles db user_id query.q
  let files := listFiles db user_id query.q query.sort query.direction page page_size
  { files := files
    total := total
    page := page
    page_size := page_size
    total_pages := totalPagesOf total page_size }

/-! ## Stats snapshot cache (`src/stats.rs`)

Time is milliseconds on a monotonic clock (`Instant`), so `now` is never
below `last_refresh`; the OS snapshot is abstracted to the value an
injected reader returns at the refresh instant. -/

/-- `StatsCache::new`'s `cache_duration`: 500 ms. -/
def cacheDurationMs : Nat := 500

/-- The process-local stats cache: the `sysinfo` snapshot (abstracted to
the reading taken at the last refresh) and the last-refresh instant in
milliseconds. -/
structure StatsCache (α : Type) where
  sys : α
  last_refresh : Nat
deriving DecidableEq, Repr

/-- `StatsCache::refresh_if_needed`: when at least `cache_duration` has
elapsed since `last_refresh`, re-read all OS metrics (`readAll now`) and
stamp `now`; otherwise leave the cache untouched. -/
def refreshIfNeeded {α : Type} (readAll : Nat → α) (now : Nat)
    (c : StatsCache α) : StatsCache α :=
  if cacheDurationMs ≤ now - c.last_refresh then
    { sys := readAll now, last_refresh := now }
  else c

/-- The fields of the `get_stats` response that the temporal claim is
about: the snapshot served and the constant `update_rate_hz: 2` the
handler writes into `SystemStats`. -/
structure StatsReport (α : Type) where
  snapshot : α
  update_rate_hz : Nat
deriving DecidableEq, Repr

/-- The `get_stats` handler's interaction with the cache: refresh if
needed, serve the (possibly stale) snapshot, and report
`update_rate_hz = 2`; returns the updated cache alongside. -/
def getStats {α : Type} (readAll : Nat → α) (now : Nat)
    (c : StatsCache α) : StatsReport α × StatsCache α :=
  let c' := refreshIfNeeded readAll now c
  (⟨c'.sys, 2⟩, c')

/-! ## Token extraction (`Claims::from_request_parts` in `src/auth.rs`)

The `jsonwebtoken::decode` call is external; it is parametrised by a
function returning either the claims or one of the three failure kinds
the spec names. -/

/-- The `AuthError` enum of `src/auth.rs`. -/
inductive AuthError where
  | wrongCredentials
  | missingCredentials
  | tokenCreation
  | invalidToken
  | usernameExists
  | invalidUsername
  | invalidPassword
  | storageError
  | internalError
deriving DecidableEq, Repr

/-- The token claims (`struct Claims`). -/
structure AuthClaims where
  user_id : String
  username : String
  exp : Nat
deriving DecidableEq, Repr

/-- The ways `jsonwebtoken::decode` can fail on a presented token. -/
inductive DecodeFailure where
  | badSignature
  | expired
  | malformed
deriving DecidableEq, Repr

/-- `authorization.strip…("Bearer ")` : the token after the `Bearer `
marker, or `none` when the header does not start with it. -/
def afterBearer (s : List Char) : Option (List Char) :=
  let marker := "Bearer ".toList
  if s.take marker.length = marker then some (s.drop marker.length) else none

/-- `Claims::from_request_parts`.  `header` is the result of reading the
`Authorization` header and converting it to a string (`None` when the
header is absent or not a valid header string); `decodeTok` is the
parametrised `jsonwebtoken::decode`. -/
def claimsFromRequestParts (header : Option (List Char))
    (decodeTok : List Char → Except DecodeFailure AuthClaims) :
    Except AuthError AuthClaims :=
  match header with
  | none => .error .missingCredentials
  | some authorization =>
    match afterBearer authorization with
    | none => .error .invalidToken
    | some token =>
      match decodeTok token with
      | .error _ => .error .invalidToken
      | .ok claims => .ok claims

/-! ## Key derivation (`Keys::new` in `src/auth.rs`)

The seed construction is pure; the panic of `i % 0` (when the padding
loop runs with `len = 0`, i.e. an empty secret) is modelled by `none`. -/

/-- The padding loop of `Keys::new`: `for i in len..32 { seed[i] =
seed[i % len]; }`, iterating `i` upward with `fuel = 32 - i` steps
remaining.  When `len = 0` the source computes `i % 0`, which panics. -/
def padSeed (len : Nat) : Nat → Nat → List Nat → Option (List Nat)
  | _, 0, seed => some seed
  | i, fuel + 1, seed =>
    if len = 0 then none
    else padSeed len (i + 1) fuel (seed.set i (seed.getD (i % len) 0))

/-- The seed construction of `Keys::new`: a 32-byte array, the first
`min (secret.length) 32` bytes copied from the secret, the rest filled
by the padding loop; `none` when that loop panics. -/
def keysNewSeed (secret : Bytes) : Option Bytes :=
  let len := min secret.length 32
  let seed := secret.take len ++ List.replicate (32 - len) 0
  if len < 32 then padSeed len len (32 - len) seed
  else some seed

/-! ## Upload pipeline (`upload_file` in `src/filemanager.rs`)

The blob store is an association list from storage paths (relative to
`storage_root`) to byte contents.  A multipart request is a list of
fields; every fallible external step — reading the next field, reading
the metadata bytes and parsing them, creating the directory and the
file, reading each chunk, writing it, flushing, and the SQL insert — is
parametrised by its outcome, so each `map_err` arm of the source is a
reachable branch of the model. -/

/-- The on-disk blob store: storage path ↦ byte content. -/
abbrev Disk := List (String × Bytes)

/-- Content stored at `p`, if any. -/
def fsLookup (d : Disk) (p : String) : Option Bytes :=
  (d.find? fun e => e.1 == p).map (·.2)

/-- (Over)write the file at `p` with content `c`
(`tokio::fs::File::create` truncates). -/
def fsSet (d : Disk) (p : String) (c : Bytes) : Disk :=
  (p, c) :: d.filter fun e => !(e.1 == p)

/-- Append `data` to the file at `p` (`write_all` on the open handle). -/
def fsAppend (d : Disk) (p : String) (data : Bytes) : Disk :=
  fsSet d p ((fsLookup d p).getD [] ++ data)

/-- `tokio::fs::remove_file`. -/
def fsRemove (d : Disk) (p : String) : Disk :=
  d.filter fun e => !(e.1 == p)

/-- One event of the chunk-reading loop: either `stream.chunk()`
yields a chunk (with the outcome of the subsequent `write_all`), or it
errors. -/
inductive ChunkEv where
  | chunk (data : Bytes) (writeOk : Bool)
  | readErr
deriving DecidableEq, Repr

/-- One field of the multipart body, as `upload_file`'s loop sees it.
`meta none` is a metadata field whose bytes could not be read or parsed;
`file` carries the freshly generated UUID together with the outcomes of
the directory creation, the file creation, the `remove_file` cleanup
attempted if the cap aborts the write (`removeOk`; the source ignores
its error with `let _ = ...`, so on failure the partial blob survives),
each chunk event, and the final flush; `other` is a field with any
other (or no) name; `nextFieldErr` is an error from
`multipart.next_field()` itself. -/
inductive UploadField where
  | meta (parsed : Option FileMetadata)
  | file (genId : String) (mkdirOk createOk removeOk : Bool)
      (events : List ChunkEv) (flushOk : Bool)
  | other (name : String)
  | nextFieldErr
deriving Repr

/-- `MAX_FILE_SIZE`: `100 * 1024 * 1024` bytes. -/
def maxFileSize : Nat := 100 * 1024 * 1024

/-- The mutable state of `upload_file`'s field loop, plus the blob
store. -/
structure UpState where
  metadata : Option FileMetadata
  file_id : Option String
  storage_path : Option String
  actual_size : Nat
  disk : Disk

/-- The chunk loop of `upload_file`: for each chunk, add its length to
`size`; if the running total exceeds `MAX_FILE_SIZE`, attempt to delete
the partial file — `let _ = tokio::fs::remove_file(...)` ignores the
outcome, so on a failed removal (`removeOk = false`) the partial blob
stays — and fail with `InvalidMetadata` (the source's "File too large"
return); otherwise `write_all` it (failure: `StorageError`, partial file
left in place).  A `stream.chunk()` error is a `StorageError`.  On an
error the blob store at that instant is returned with the error. -/
def writeChunks (path : String) (removeOk : Bool) (size : Nat) (disk : Disk) :
    List ChunkEv → Except (FileError × Disk) (Nat × Disk)
  | [] => .ok (size, disk)
  | .readErr :: _ => .error (.storageError, disk)
  | .chunk data writeOk :: rest =>
    let size' := size + data.length
    if maxFileSize < size' then
      .error (.invalidMetadata, if removeOk then fsRemove disk path else disk)
    else if writeOk then
      writeChunks path removeOk size' (fsAppend disk path data) rest
    else
      .error (.storageError, disk)

/-- Processing of one multipart field by `upload_file`'s loop. -/
def processField (user_id : String) (s : UpState) :
    UploadField → Except (FileError × Disk) UpState
  | .nextFieldErr => .error (.invalidMetadata, s.disk)
  | .meta none => .error (.invalidMetadata, s.disk)
  | .meta (some m) => .ok { s with metadata := some m }
  | .other _ => .ok s
  | .file genId mkdirOk createOk removeOk events flushOk =>
    let path := user_id ++ "/" ++ genId ++ ".bin"
    if !mkdirOk then .error (.storageError, s.disk)
    else if !createOk then .error (.storageError, s.disk)
    else
      match writeChunks path removeOk 0 (fsSet s.disk path []) events with
      | .error e => .error e
      | .ok (size, disk') =>
        if flushOk then
          .ok { metadata := s.metadata
                file_id := some genId
                storage_path := some path
                actual_size := size
                disk := disk' }
        else .error (.storageError, disk')

/-- The field loop of `upload_file`: process fields in order, stopping
at the first error. -/
def runFields (user_id : String) (s : UpState) :
    List UploadField → Except (FileError × Disk) UpState
  | [] => .ok s
  | f :: rest =>
    match processField user_id s f with
    | .error e => .error e
    | .ok s' => runFields user_id s' rest

/-- The observable outcome of an upload request: the handler's result
(the created row on success), the final blob store, and the
rows inserted into the `files` table. -/
structure UploadOutcome where
  result : Except FileError FileRow
  disk : Disk
  rows : List FileRow

/-- `upload_file`.  After the field loop, require the metadata, file id
and storage path to be present (each absence is `InvalidMetadata`),
build the `File` row with `size_bytes := actual_size` — the bytes
actually received, not the declared size — and insert it
(`create_file`; `dbOk` parametrises the SQL outcome). -/
def uploadFile (user_id created_at : String) (dbOk : Bool) (disk₀ : Disk)
    (fields : List UploadField) : UploadOutcome :=
  match runFields user_id ⟨none, none, none, 0, disk₀⟩ fields with
  | .error (e, d) => ⟨.error e, d, []⟩
  | .ok s =>
    match s.metadata, s.file_id, s.storage_path with
    | some m, some fid, some sp =>
      let row : FileRow :=
        ⟨fid, user_id, m.original_name, m.mime_type, (s.actual_size : Int),
          sp, created_at⟩
      if dbOk then ⟨.ok row, s.disk, [row]⟩
      else ⟨.error .databaseError, s.disk, []⟩
    | _, _, _ => ⟨.error .invalidMetadata, s.disk, []⟩

/-- Total length of a list of chunks. -/
def sumLen (chunks : List Bytes) : Nat :=
  (chunks.map List.length).sum

/-- A clean binary field: every chunk read and written successfully. -/
def okEvents (chunks : List Bytes) : List ChunkEv :=
  chunks.map fun c => .chunk c true

/-! ## Helper lemmas -/

/-- The head of a filtered list is a member of the original list and
satisfies the filter. -/
theorem head?_filter_mem {α : Type} {p : α → Bool} {l : List α} {a : α}
    (h : (l.filter p).head? = some a) : a ∈ l ∧ p a = true := by
  induction l with
  | nil => simp at h
  | cons x xs ih =>
    by_cases hp : p x
    · rw [List.filter_cons_of_pos hp] at h
      simp only [List.head?_cons, Option.some.injEq] at h
      exact ⟨by simp [h], h ▸ hp⟩
    · rw [List.filter_cons_of_neg (by simpa using hp)] at h
      obtain ⟨hmem, hpa⟩ := ih h
      exact ⟨List.mem_cons_of_mem _ hmem, hpa⟩

/-- `filter_map` with a drop-or-rewrite closure is the rewrite mapped
over the kept elements. -/
theorem sanitize_filterMap_eq (s : List Char) :
    (s.filterMap fun c =>
      if sanitizeDrops c then none
      else if !(rustIsAscii c) then some '_' else some c) =
    ((s.filter fun c => !(sanitizeDrops c)).map
      fun c => if !(rustIsAscii c) then '_' else c) := by
  induction s with
  | nil => rfl
  | cons c cs ih =>
    by_cases h : sanitizeDrops c
    · simpa [List.filterMap_cons, List.filter_cons, h] using ih
    · by_cases ha : rustIsAscii c <;>
        simpa [List.filterMap_cons, List.filter_cons, h, ha] using ih

/-- A row that does not match both the id and the owner satisfies the
keep-predicate of the ownership-scoped `DELETE`. -/
theorem row_keep_of_not_match {r : FileRow} {id user_id : String}
    (h : ¬(r.id = id ∧ r.user_id = user_id)) :
    (!(r.id == id && r.user_id == user_id)) = true := by
  rcases Decidable.em (r.id = id) with h1 | h1
  · rcases Decidable.em (r.user_id = user_id) with h2 | h2
    · exact absurd ⟨h1, h2⟩ h
    · simp [h1, h2]
  · simp [h1]

/-- Writing a file and reading it back. -/
theorem fsLookup_set_eq (d : Disk) (p : String) (c : Bytes) :
    fsLookup (fsSet d p c) p = some c := by
  simp [fsLookup, fsSet, List.find?_cons_of_pos]

/-- Removing a file removes it. -/
theorem fsLookup_remove_eq (d : Disk) (p : String) :
    fsLookup (fsRemove d p) p = none := by
  simp only [fsLookup, fsRemove, Option.map_eq_none']
  rw [List.find?_eq_none]
  intro e he
  have := (List.mem_filter.mp he).2
  simpa using this

/-- Appending to a file extends its content. -/
theorem fsLookup_append_self (d : Disk) (p : String) (content data : Bytes)
    (h : fsLookup d p = some content) :
    fsLookup (fsAppend d p data) p = some (content ++ data) := by
  rw [fsAppend, h]
  exact fsLookup_set_eq d p (content ++ data)

/-- The chunk loop on an all-successful event list whose total stays
within the cap: it succeeds, the final size is the running size plus
the bytes received, and the blob holds everything written. -/
theorem writeChunks_ok (p : String) (removeOk : Bool) (chunks : List Bytes) :
    ∀ (size : Nat) (disk : Disk) (content : Bytes),
      fsLookup disk p = some content →
      size + sumLen chunks ≤ maxFileSize →
      ∃ disk', writeChunks p removeOk size disk (okEvents chunks) =
          .ok (size + sumLen chunks, disk') ∧
        fsLookup disk' p = some (content ++ chunks.flatten) := by
  induction chunks with
  | nil =>
    intro size disk content hc _
    exact ⟨disk, by simp [okEvents, writeChunks, sumLen], by simpa using hc⟩
  | cons d rest ih =>
    intro size disk content hc hle
    have hsum : sumLen (d :: rest) = d.length + sumLen rest := by
      simp [sumLen]
    have hnot : ¬ maxFileSize < size + d.length := by
      rw [hsum] at hle; omega
    have hl : fsLookup (fsAppend disk p d) p = some (content ++ d) :=
      fsLookup_append_self disk p content d hc
    obtain ⟨disk', h1, h2⟩ := ih (size + d.length) (fsAppend disk p d)
      (content ++ d) hl (by rw [hsum] at hle; omega)
    refine ⟨disk', ?_, by simpa [List.append_assoc] using h2⟩
    show writeChunks p removeOk size disk (.chunk d true :: okEvents rest) = _
    unfold writeChunks
    rw [if_neg hnot]
    simpa [hsum, Nat.add_assoc] using h1

/-- The chunk loop on an all-successful event list whose total exceeds
the cap: it aborts with the "file too large" `InvalidMetadata` error;
the partial blob is gone exactly when the ignored `remove_file` call
succeeded, and survives when it failed. -/
theorem writeChunks_overflow (p : String) (removeOk : Bool) (chunks : List Bytes) :
    ∀ (size : Nat) (disk : Disk) (content : Bytes),
      fsLookup disk p = some content →
      size ≤ maxFileSize →
      maxFileSize < size + sumLen chunks →
      ∃ disk', writeChunks p removeOk size disk (okEvents chunks) =
          .error (.invalidMetadata, disk') ∧
        (removeOk = true → fsLookup disk' p = none) ∧
        (removeOk = false → ∃ c, fsLookup disk' p = some c) := by
  induction chunks with
  | nil =>
    intro size disk content hc hsz h
    simp [sumLen] at h
    omega
  | cons d rest ih =>
    intro size disk content hc hsz h
    have hsum : sumLen (d :: rest) = d.length + sumLen rest := by
      simp [sumLen]
    by_cases hover : maxFileSize < size + d.length
    · refine ⟨if removeOk then fsRemove disk p else disk, ?_, ?_, ?_⟩
      · show writeChunks p removeOk size disk (.chunk d true :: okEvents rest) = _
        unfold writeChunks
        rw [if_pos hover]
      · intro hr
        rw [if_pos hr]
        exact fsLookup_remove_eq disk p
      · intro hr
        rw [hr]
        exact ⟨content, by simpa using hc⟩
    · obtain ⟨disk', h1, h2, h3⟩ := ih (size + d.length) (fsAppend disk p d)
        (content ++ d) (fsLookup_append_self disk p content d hc)
        (by omega) (by rw [hsum] at h; omega)
      refine ⟨disk', ?_, h2, h3⟩
      show writeChunks p removeOk size disk (.chunk d true :: okEvents rest) = _
      unfold writeChunks
      rw [if_neg hover]
      simpa using h1

/-- A chunk-loop error is decided at the failing event: events arriving
after it cannot change the outcome (the incremental check). -/
theorem writeChunks_error_append (p : String) (removeOk : Bool) :
    ∀ (evs : List ChunkEv) (post : List ChunkEv) (size : Nat) (disk : Disk)
      (e : FileError × Disk),
      writeChunks p removeOk size disk evs = .error e →
      writeChunks p removeOk size disk (evs ++ post) = .error e := by
  intro evs
  induction evs with
  | nil =>
    intro post size disk e h
    simp [writeChunks] at h
  | cons ev rest ih =>
    intro post size disk e h
    cases ev with
    | readErr =>
      simpa [writeChunks] using h
    | chunk data writeOk =>
      rw [List.cons_append]
      simp only [writeChunks] at h ⊢
      by_cases hover : maxFileSize < size + data.length
      · rw [if_pos hover] at h ⊢
        exact h
      · rw [if_neg hover] at h ⊢
        by_cases hw : writeOk
        · subst hw
          simp only [if_pos rfl] at h ⊢
          exact ih post _ _ _ h
        · have hw' : writeOk = false := by simpa using hw
          subst hw'
          simpa using h

/-- If the chunk loop succeeds and the blob existed with content length
equal to the running size, the final blob exists with content length
equal to the final size: every received byte is on disk. -/
theorem writeChunks_ok_length (p : String) (removeOk : Bool) :
    ∀ (evs : List ChunkEv) (size : Nat) (disk : Disk) (content : Bytes)
      (sz : Nat) (disk' : Disk),
      fsLookup disk p = some content → content.length = size →
      writeChunks p removeOk size disk evs = .ok (sz, disk') →
      ∃ content', fsLookup disk' p = some content' ∧ content'.length = sz := by
  intro evs
  induction evs with
  | nil =>
    intro size disk content sz disk' h1 h2 h3
    simp [writeChunks] at h3
    obtain ⟨hsz, hdisk⟩ := h3
    exact ⟨content, hdisk ▸ h1, hsz ▸ h2⟩
  | cons ev rest ih =>
    intro size disk content sz disk' h1 h2 h3
    cases ev with
    | readErr => simp [writeChunks] at h3
    | chunk data writeOk =>
      unfold writeChunks at h3
      by_cases hover : maxFileSize < size + data.length
      · rw [if_pos hover] at h3
        simp at h3
      · rw [if_neg hover] at h3
        by_cases hw : writeOk
        · subst hw
          simp only [if_pos rfl] at h3
          exact ih (size + data.length) (fsAppend disk p data) (content ++ data)
            sz disk' (fsLookup_append_self disk p content data h1)
            (by simp [h2]) h3
        · have hw' : writeOk = false := by simpa using hw
          subst hw'
          simp at h3

/-- Evaluation of the field loop on the canonical two-field request:
a parsed metadata field followed by the binary field (directory and
file creation succeeding). -/
theorem runFields_canonical (user_id : String) (m : FileMetadata) (genId : String)
    (removeOk : Bool) (evs : List ChunkEv) (flushOk : Bool) (disk₀ : Disk) :
    runFields user_id ⟨none, none, none, 0, disk₀⟩
      [.meta (some m), .file genId true true removeOk evs flushOk] =
      match writeChunks (user_id ++ "/" ++ genId ++ ".bin") removeOk 0
          (fsSet disk₀ (user_id ++ "/" ++ genId ++ ".bin") []) evs with
      | .error e => .error e
      | .ok (size, disk') =>
        if flushOk then
          .ok ⟨some m, some genId, some (user_id ++ "/" ++ genId ++ ".bin"),
            size, disk'⟩
        else .error (.storageError, disk') := by
  cases hw : writeChunks (user_id ++ "/" ++ genId ++ ".bin") removeOk 0
      (fsSet disk₀ (user_id ++ "/" ++ genId ++ ".bin") []) evs with
  | error e => simp [runFields, processField, hw]
  | ok v =>
    obtain ⟨size, disk'⟩ := v
    by_cases hf : flushOk <;> simp [runFields, processField, hw, hf]

/-- The invariant tying the loop state to the blob store: whenever a
storage path has been recorded, the blob at that path exists and its
length is the recorded actual size. -/
def diskConsistent (s : UpState) : Prop :=
  ∀ p, s.storage_path = some p →
    ∃ c, fsLookup s.disk p = some c ∧ c.length = s.actual_size

/-- Processing one field preserves the blob-store invariant. -/
theorem processField_preserves (user_id : String) (f : UploadField) :
    ∀ (s s' : UpState), diskConsistent s →
      processField user_id s f = .ok s' → diskConsistent s' := by
  intro s s' hs h
  cases f with
  | nextFieldErr => simp [processField] at h
  | meta parsed =>
    cases parsed with
    | none => simp [processField] at h
    | some m =>
      simp only [processField, Except.ok.injEq] at h
      subst h
      intro p hp
      exact hs p hp
  | other name =>
    simp only [processField, Except.ok.injEq] at h
    subst h
    exact hs
  | file genId mkdirOk createOk removeOk events flushOk =>
    simp only [processField] at h
    split at h
    · simp at h
    · split at h
      · simp at h
      · split at h
        · simp at h
        · rename_i size disk' hw
          split at h
          · injection h with h
            subst h
            intro p hp
            simp only [Option.some.injEq] at hp
            subst hp
            obtain ⟨c', hc', hlen⟩ := writeChunks_ok_length
              (user_id ++ "/" ++ genId ++ ".bin") removeOk events 0
              (fsSet s.disk (user_id ++ "/" ++ genId ++ ".bin") []) [] size disk'
              (fsLookup_set_eq _ _ _) rfl hw
            exact ⟨c', hc', hlen⟩
          · simp at h

/-- The whole field loop preserves the blob-store invariant. -/
theorem runFields_preserves (user_id : String) :
    ∀ (fields : List UploadField) (s s' : UpState), diskConsistent s →
      runFields user_id s fields = .ok s' → diskConsistent s' := by
  intro fields
  induction fields with
  | nil =>
    intro s s' hs h
    simp only [runFields, Except.ok.injEq] at h
    subst h
    exact hs
  | cons f rest ih =>
    intro s s' hs h
    simp only [runFields] at h
    cases hp : processField user_id s f with
    | error e => rw [hp] at h; simp at h
    | ok s1 =>
      rw [hp] at h
      exact ih s1 s' (processField_preserves user_id f s s1 hs hp) h

/-- Outcome of the canonical upload when the received bytes stay within
the cap and every external step succeeds: a created row recording the
received byte count, exactly that row inserted, and the full content on
disk. -/
theorem uploadFile_within_cap (user_id created_at genId : String)
    (m : FileMetadata) (removeOk : Bool) (disk₀ : Disk) (chunks : List Bytes)
    (hle : sumLen chunks ≤ maxFileSize) :
    ∃ disk',
      uploadFile user_id created_at true disk₀
        [.meta (some m), .file genId true true removeOk (okEvents chunks) true] =
        ⟨.ok ⟨genId, user_id, m.original_name, m.mime_type,
            (sumLen chunks : Int), user_id ++ "/" ++ genId ++ ".bin", created_at⟩,
          disk',
          [⟨genId, user_id, m.original_name, m.mime_type, (sumLen chunks : Int),
            user_id ++ "/" ++ genId ++ ".bin", created_at⟩]⟩ ∧
      fsLookup disk' (user_id ++ "/" ++ genId ++ ".bin") =
        some chunks.flatten := by
  obtain ⟨disk', hw, hl⟩ := writeChunks_ok (user_id ++ "/" ++ genId ++ ".bin")
    removeOk chunks 0 (fsSet disk₀ (user_id ++ "/" ++ genId ++ ".bin") []) []
    (fsLookup_set_eq _ _ _) (by omega)
  rw [Nat.zero_add] at hw
  refine ⟨disk', ?_, by simpa using hl⟩
  unfold uploadFile
  rw [runFields_canonical user_id m genId removeOk (okEvents chunks) true disk₀,
    hw]
  rfl

/-- Outcome of the canonical upload when the received bytes exceed the
cap: the request fails with the "file too large" error, no row is
inserted, events after the failing chunk are never consumed, and the
partial blob is gone exactly when the ignored `remove_file` call
succeeded — when it fails, a blob survives on disk. -/
theorem uploadFile_overflow (user_id created_at genId : String)
    (m : FileMetadata) (dbOk removeOk flushOk : Bool) (disk₀ : Disk)
    (chunks : List Bytes) (post : List ChunkEv)
    (hgt : maxFileSize < sumLen chunks) :
    ∃ disk',
      uploadFile user_id created_at dbOk disk₀
        [.meta (some m),
          .file genId true true removeOk (okEvents chunks ++ post) flushOk] =
        ⟨.error .invalidMetadata, disk', []⟩ ∧
      (removeOk = true → fsLookup disk' (user_id ++ "/" ++ genId ++ ".bin") = none) ∧
      (removeOk = false →
        ∃ c, fsLookup disk' (user_id ++ "/" ++ genId ++ ".bin") = some c) := by
  obtain ⟨disk', hw, hnone, hsome⟩ := writeChunks_overflow
    (user_id ++ "/" ++ genId ++ ".bin") removeOk chunks 0
    (fsSet disk₀ (user_id ++ "/" ++ genId ++ ".bin") []) []
    (fsLookup_set_eq _ _ _) (by simp [maxFileSize]) (by omega)
  have hw' := writeChunks_error_append (user_id ++ "/" ++ genId ++ ".bin")
    removeOk (okEvents chunks) post 0
    (fsSet disk₀ (user_id ++ "/" ++ genId ++ ".bin") [])
    (.invalidMetadata, disk') hw
  refine ⟨disk', ?_, hnone, hsome⟩
  unfold uploadFile
  rw [runFields_canonical user_id m genId removeOk (okEvents chunks ++ post)
    flushOk disk₀, hw']

/-! ## Claim theorems -/

/-- C3: for every file id and every caller whose `user_id` differs from
the file's owner, `get(id, owner)` returns an empty result (surfaced to
the client as not-found, never as forbidden) and `delete(id, owner)`
removes no row; both operations succeed only when both the id and the
owner match. -/
theorem getFile_deleteFile_owner_scoped (db : List FileRow) (id user_id : String) :
    (∀ r, getFile db id user_id = some r → r.id = id ∧ r.user_id = user_id) ∧
    (∀ r ∈ db, ¬(r.id = id ∧ r.user_id = user_id) →
      r ∈ (deleteFileRows db id user_id).1) ∧
    ((deleteFileRows db id user_id).2 = true →
      ∃ r ∈ db, r.id = id ∧ r.user_id = user_id) ∧
    ((∀ r ∈ db, ¬(r.id = id ∧ r.user_id = user_id)) →
      lookupOwned db id user_id = .error .notFound ∧
      (deleteFileRows db id user_id).1 = db) ∧
    FileError.notFound ≠ FileError.unauthorized := by
  refine ⟨?_, ?_, ?_, ?_, by decide⟩
  · intro r h
    have := (head?_filter_mem h).2
    simpa [Bool.and_eq_true, beq_iff_eq] using this
  · intro r hr hne
    simp only [deleteFileRows, List.mem_filter]
    exact ⟨hr, row_keep_of_not_match hne⟩
  · intro h
    by_contra hno
    push_neg at hno
    have hall : ∀ r ∈ db, (!(r.id == id && r.user_id == user_id)) = true := by
      intro r hr
      exact row_keep_of_not_match (by intro hc; exact (hno r hr hc.1) hc.2)
    have heq : db.filter (fun r => !(r.id == id && r.user_id == user_id)) = db :=
      List.filter_eq_self.mpr hall
    simp only [deleteFileRows, heq] at h
    simp at h
  · intro h
    have hnil : db.filter (fun r => r.id == id && r.user_id == user_id) = [] := by
      rw [List.filter_eq_nil_iff]
      intro r hr hcontra
      exact h r hr (by simpa [Bool.and_eq_true, beq_iff_eq] using hcontra)
    have hall : ∀ r ∈ db, (!(r.id == id && r.user_id == user_id)) = true :=
      fun r hr => row_keep_of_not_match (h r hr)
    constructor
    · simp [lookupOwned, getFile, hnil]
    · exact List.filter_eq_self.mpr hall

/-- C3 witness: on a one-row table owned by `"alice"`, a lookup and a
delete by `"mallory"` miss, the delete keeps the row, and the handler
surfaces not-found. -/
theorem getFile_deleteFile_owner_scoped_witness :
    (deleteFileRows [⟨"f1", "alice", "a.txt", "text/plain", 3, "alice/f1.bin", "t"⟩]
        "f1" "mallory").1 =
      [⟨"f1", "alice", "a.txt", "text/plain", 3, "alice/f1.bin", "t"⟩] ∧
    lookupOwned [⟨"f1", "alice", "a.txt", "text/plain", 3, "alice/f1.bin", "t"⟩]
        "f1" "mallory" = .error .notFound := by
  have h := getFile_deleteFile_owner_scoped
    [⟨"f1", "alice", "a.txt", "text/plain", 3, "alice/f1.bin", "t"⟩] "f1" "mallory"
  have hmiss := h.2.2.2.1 (by decide)
  exact ⟨hmiss.2, hmiss.1⟩

/-- C7: for every input string, the download filename sanitizer removes
control characters, newlines, carriage returns, backslashes and double
quotes, replaces every non-ASCII character with an underscore, and
truncates the result to at most 255 characters. -/
theorem sanitizeFilename_correct (s : List Char) :
    sanitizeFilename s = specSanitizeFilename s ∧
    (sanitizeFilename s).length ≤ 255 ∧
    ∀ c ∈ sanitizeFilename s, rustIsAscii c = true ∧ sanitizeDrops c = false := by
  refine ⟨?_, ?_, ?_⟩
  · unfold sanitizeFilename specSanitizeFilename
    rw [sanitize_filterMap_eq]
  · unfold sanitizeFilename
    simp [List.length_take]
  · intro c hc
    unfold sanitizeFilename at hc
    have hc' := List.mem_of_mem_take hc
    rw [List.mem_filterMap] at hc'
    obtain ⟨a, _, hfa⟩ := hc'
    by_cases h : sanitizeDrops a
    · simp [h] at hfa
    · by_cases ha : rustIsAscii a
      · simp [h, ha] at hfa
        subst hfa
        exact ⟨ha, by simpa using h⟩
      · simp [h, ha] at hfa
        subst hfa
        exact ⟨by decide, by decide⟩

set_option maxRecDepth 4000 in
/-- C7 witness: a name with a quote, a carriage return, a newline, a
backslash, a control character and a non-ASCII character sanitizes to
the claimed shape. -/
theorem sanitizeFilename_correct_witness :
    sanitizeFilename ['a', '"', '\r', '\n', '\\', Char.ofNat 7, 'é', 'b'] =
      ['a', '_', 'b'] ∧
    (rustIsAscii '_' = true ∧ sanitizeDrops '_' = false) := by
  have h := sanitizeFilename_correct ['a', '"', '\r', '\n', '\\', Char.ofNat 7, 'é', 'b']
  refine ⟨by decide, h.2.2 '_' (by decide)⟩

/-- C8: a stats refresh less than 500 ms after the previous one leaves
the snapshot and its timestamp unchanged; one at least 500 ms later
re-reads the OS metrics and stamps the current instant; and the
`update_rate_hz` the stats endpoint reports is the constant 2, which
matches the 500 ms throttle window (2 × 500 ms = 1 s). -/
theorem refreshIfNeeded_throttle (α : Type) (readAll : Nat → α) (now : Nat)
    (c : StatsCache α) :
    (now - c.last_refresh < cacheDurationMs → refreshIfNeeded readAll now c = c) ∧
    (cacheDurationMs ≤ now - c.last_refresh →
      refreshIfNeeded readAll now c = ⟨readAll now, now⟩) ∧
    (getStats readAll now c).1.update_rate_hz = 2 ∧
    (getStats readAll now c).1.update_rate_hz * cacheDurationMs = 1000 := by
  refine ⟨fun h => ?_, fun h => ?_, ?_, ?_⟩
  · simp [refreshIfNeeded, Nat.not_le.mpr h]
  · simp [refreshIfNeeded, h]
  · simp [getStats]
  · simp [getStats, cacheDurationMs]

/-- C8 witness: at 300 ms after a refresh stamped at time 0 the cache
is untouched; at 500 ms it is re-read and restamped. -/
theorem refreshIfNeeded_throttle_witness :
    refreshIfNeeded (fun t => t + 1) 300 (⟨17, 0⟩ : StatsCache Nat) = ⟨17, 0⟩ ∧
    refreshIfNeeded (fun t => t + 1) 500 (⟨17, 0⟩ : StatsCache Nat) = ⟨501, 500⟩ := by
  have h₁ := (refreshIfNeeded_throttle Nat (fun t => t + 1) 300 ⟨17, 0⟩).1 (by decide)
  have h₂ := (refreshIfNeeded_throttle Nat (fun t => t + 1) 500 ⟨17, 0⟩).2.1 (by decide)
  exact ⟨h₁, h₂⟩

/-- C9: for every authenticated request, absence of the `Authorization`
header yields `MissingCredentials`, and every token decode failure —
bad signature, expired, or malformed — yields the single `InvalidToken`
error, without distinguishing which check failed. -/
theorem claimsFromRequestParts_errors
    (decodeTok : List Char → Except DecodeFailure AuthClaims) :
    claimsFromRequestParts none decodeTok = .error .missingCredentials ∧
    ∀ hdr tok e, afterBearer hdr = some tok → decodeTok tok = .error e →
      claimsFromRequestParts (some hdr) decodeTok = .error .invalidToken := by
  refine ⟨rfl, fun hdr tok e h1 h2 => ?_⟩
  simp [claimsFromRequestParts, h1, h2]

/-- C9 witness: a decoder failing with `expired` on the token of
`Bearer abc` is reported as `InvalidToken`; a missing header is
`MissingCredentials`. -/
theorem claimsFromRequestParts_errors_witness :
    claimsFromRequestParts (some "Bearer abc".toList)
      (fun _ => .error .expired) = .error .invalidToken ∧
    claimsFromRequestParts none
      (fun _ => (.error .expired : Except DecodeFailure AuthClaims)) =
      .error .missingCredentials := by
  have h := claimsFromRequestParts_errors (fun _ => .error .expired)
  exact ⟨h.2 "Bearer abc".toList "abc".toList .expired (by decide) rfl, h.1⟩

/-- Invariant of the `Keys::new` padding loop (`w` abstracts the secret
byte at an index): positions below `len` keep the copied bytes, and
every position the loop has passed holds the byte at its index modulo
`len`; with `len ≠ 0` the loop never panics. -/
theorem padSeed_invariant (w : Nat → Nat) (len : Nat) (hlen : 0 < len) :
    ∀ (fuel i : Nat) (seed : List Nat), i + fuel = 32 → len ≤ i →
      seed.length = 32 →
      (∀ j, j < len → seed.getD j 0 = w j) →
      (∀ j, len ≤ j → j < i → seed.getD j 0 = w (j % len)) →
      ∃ out, padSeed len i fuel seed = some out ∧ out.length = 32 ∧
        (∀ j, j < len → out.getD j 0 = w j) ∧
        (∀ j, len ≤ j → j < 32 → out.getD j 0 = w (j % len)) := by
  intro fuel
  induction fuel with
  | zero =>
    intro i seed hif hli hlen32 h1 h2
    exact ⟨seed, rfl, hlen32, h1, fun j hj1 hj2 => h2 j hj1 (by omega)⟩
  | succ fuel ih =>
    intro i seed hif hli hlen32 h1 h2
    have hne : len ≠ 0 := Nat.pos_iff_ne_zero.mp hlen
    have hstep : padSeed len i (fuel + 1) seed =
        padSeed len (i + 1) fuel (seed.set i (seed.getD (i % len) 0)) := by
      simp [padSeed, hne]
    rw [hstep]
    set v := seed.getD (i % len) 0 with hv
    have hvw : v = w (i % len) := by
      rw [hv]; exact h1 _ (Nat.mod_lt _ hlen)
    have hset_ne : ∀ j, j ≠ i → (seed.set i v).getD j 0 = seed.getD j 0 := by
      intro j hj
      simp [List.getD_eq_getElem?_getD, List.getElem?_set_ne (Ne.symm hj)]
    have hset_eq : (seed.set i v).getD i 0 = v := by
      have hi : i < seed.length := by omega
      simp [List.getD_eq_getElem?_getD, List.getElem?_set_self hi]
    refine ih (i + 1) (seed.set i v) (by omega) (by omega) (by simp [hlen32]) ?_ ?_
    · intro j hj
      rw [hset_ne j (by omega)]
      exact h1 j hj
    · intro j hj1 hj2
      rcases Decidable.em (j = i) with he | he
      · subst he
        rw [hset_eq, hvw]
      · rw [hset_ne j he]
        exact h2 j hj1 (by omega)

/-- C10: key derivation is total only for non-empty secrets — for a
non-empty secret the 32-byte seed is deterministically filled by
repeating the secret's bytes; for the empty secret the padding loop
computes `i % 0` and panics. -/
theorem keysNewSeed_requires_nonempty (secret : Bytes) :
    (secret = [] → keysNewSeed secret = none) ∧
    (secret ≠ [] → ∃ seed, keysNewSeed secret = some seed ∧
      seed.length = 32 ∧
      ∀ i, i < 32 → seed.getD i 0 = secret.getD (i % min secret.length 32) 0) := by
  constructor
  · intro h
    subst h
    rfl
  · intro h
    have hpos : 0 < secret.length := List.length_pos.mpr h
    rcases Decidable.em (secret.length < 32) with hlt | hge
    · -- short secret: the padding loop runs with len = secret.length > 0
      have hlen : min secret.length 32 = secret.length := by omega
      have htake : (secret.take secret.length).length = secret.length := by
        simp
      have h1 : ∀ j, j < secret.length →
          (secret.take secret.length ++
            List.replicate (32 - secret.length) 0).getD j 0 = secret.getD j 0 := by
        intro j hj
        rw [List.getD_append _ _ _ _ (by omega)]
        simp [List.getD_eq_getElem?_getD, List.getElem?_take_of_lt hj]
      obtain ⟨out, hrun, hlen32, hlow, hhigh⟩ :=
        padSeed_invariant (fun k => secret.getD k 0) secret.length hpos
          (32 - secret.length) secret.length
          (secret.take secret.length ++ List.replicate (32 - secret.length) 0)
          (by omega) (by omega)
          (by simp [htake]; omega) h1 (by omega)
      refine ⟨out, ?_, hlen32, ?_⟩
      · rw [show keysNewSeed secret =
            padSeed (min secret.length 32) (min secret.length 32)
              (32 - min secret.length 32)
              (secret.take (min secret.length 32) ++
                List.replicate (32 - min secret.length 32) 0) from by
            simp only [keysNewSeed]
            rw [if_pos (by omega)]]
        rw [hlen]
        exact hrun
      · intro i hi
        rw [hlen]
        rcases Decidable.em (i < secret.length) with hil | hil
        · rw [Nat.mod_eq_of_lt hil]
          exact hlow i hil
        · exact hhigh i (by omega) hi
    · -- long secret: the first 32 bytes are copied, the loop does not run
      have hlen : min secret.length 32 = 32 := by omega
      have hkeys : keysNewSeed secret =
          some (secret.take 32 ++ List.replicate 0 0) := by
        simp only [keysNewSeed]
        rw [hlen]
        rw [if_neg (by omega)]
      refine ⟨secret.take 32 ++ List.replicate 0 0, hkeys, by simp; omega, ?_⟩
      intro i hi
      rw [hlen, Nat.mod_eq_of_lt hi]
      simp only [List.replicate, List.append_nil]
      simp [List.getD_eq_getElem?_getD, List.getElem?_take_of_lt hi]

/-- C10 witness: the two-byte secret `[1, 2]` yields the alternating
32-byte seed, and its byte at index 5 is `secret[5 % 2] = 2`. -/
theorem keysNewSeed_requires_nonempty_witness :
    keysNewSeed [] = none ∧
    keysNewSeed [1, 2] =
      some [1, 2, 1, 2, 1, 2, 1, 2, 1, 2, 1, 2, 1, 2, 1, 2,
            1, 2, 1, 2, 1, 2, 1, 2, 1, 2, 1, 2, 1, 2, 1, 2] ∧
    (keysNewSeed [1, 2]).bind (fun s => some (s.getD 5 0)) = some 2 := by
  have h0 := (keysNewSeed_requires_nonempty []).1 rfl
  have h2 := (keysNewSeed_requires_nonempty [1, 2]).2 (by decide)
  refine ⟨h0, by decide, ?_⟩
  obtain ⟨seed, hseed, _, hval⟩ := h2
  rw [hseed]
  show some (seed.getD 5 0) = some 2
  rw [hval 5 (by omega)]
  rfl

/-- C5 counterexample, two parts.  Check order: with the two-byte
username `"ab"` and the one-byte password `"x"` — a password shorter
than 6 — `create_user` fails with `InvalidUsername`, not
`InvalidPassword`, because the username check runs first.  Length unit:
the code measures `str::len()`, UTF-8 *bytes*, not characters — the
two-character username `"éé"` is outside `[3,50]` characters, yet its
four-byte encoding passes the check and `create_user` succeeds. -/
theorem createUser_counterexample :
    ((createUser (utf8Encode ['a', 'b']) (utf8Encode ['x'])
        (some "h") "u1" "t" .ok).1 = .error .invalidUsername ∧
      UserError.invalidUsername ≠ UserError.invalidPassword) ∧
    ((['é', 'é'].length < 3 ∧ (utf8Encode ['é', 'é']).length = 4) ∧
      ∃ u, (createUser (utf8Encode ['é', 'é'])
          (utf8Encode ['s', 'e', 'c', 'r', 'e', 't'])
          (some "h") "u1" "t" .ok).1 = .ok u) := by
  exact ⟨⟨rfl, by decide⟩, ⟨by decide, ⟨_, rfl⟩⟩⟩

/-- C5 (amended): a username outside [3,50] bytes fails with
`InvalidUsername` (whatever the password), and a password shorter than
6 bytes with a valid-length username fails with `InvalidPassword`; in
both cases no hashing and no database write is performed (the effect
list is empty). -/
theorem createUser_validation (username password : Bytes)
    (hashOutcome : Option String) (genId now : String)
    (insertOutcome : InsertOutcome) :
    (username.length < 3 ∨ 50 < username.length →
      createUser username password hashOutcome genId now insertOutcome =
        (.error .invalidUsername, [])) ∧
    (3 ≤ username.length → username.length ≤ 50 → password.length < 6 →
      createUser username password hashOutcome genId now insertOutcome =
        (.error .invalidPassword, [])) := by
  constructor
  · intro h
    rcases h with h | h <;> simp [createUser, h]
  · intro h1 h2 h3
    have hA : ¬ username.length < 3 := by omega
    have hB : ¬ username.length > 50 := by omega
    simp [createUser, hA, hB, h3]

/-- C5 witness: the short username `"ab"` is rejected as
`InvalidUsername` even with a six-byte password, and the short password
`"x"` under the valid username `"abc"` is rejected as
`InvalidPassword`; neither performs any effect. -/
theorem createUser_validation_witness :
    createUser [97, 98] [112, 113, 114, 115, 116, 117] (some "h") "u" "t" .ok =
      (.error .invalidUsername, []) ∧
    createUser [97, 98, 99] [120] (some "h") "u" "t" .ok =
      (.error .invalidPassword, []) := by
  have hu := (createUser_validation [97, 98] [112, 113, 114, 115, 116, 117]
    (some "h") "u" "t" .ok).1 (Or.inl (by decide))
  have hp := (createUser_validation [97, 98, 99] [120]
    (some "h") "u" "t" .ok).2 (by decide) (by decide) (by decide)
  exact ⟨hu, hp⟩

/-- The integer `total_pages` formula equals the exact rational ceiling
of `total / page_size`. -/
theorem totalPagesOf_eq_ceil (total page_size : Int)
    (htotal : 0 ≤ total) (hps : 1 ≤ page_size) :
    totalPagesOf total page_size = ⌈(total : ℚ) / (page_size : ℚ)⌉ := by
  lift total to ℕ using htotal with t
  lift page_size to ℕ using (by omega : (0:ℤ) ≤ page_size) with p
  have hp : 0 < p := by exact_mod_cast hps
  have hcast : ((t : ℤ) + (p : ℤ) - 1) = (((t + p - 1 : ℕ)) : ℤ) := by
    rw [Nat.cast_sub (by omega : 1 ≤ t + p)]
    push_cast
    ring
  unfold totalPagesOf
  rw [hcast, ← Int.natCast_div]
  have hq1 := Nat.div_add_mod (t + p - 1) p
  have hq2 := Nat.mod_lt (t + p - 1) hp
  set q := (t + p - 1) / p with hqdef
  set r := (t + p - 1) % p with hrdef
  -- the two division facts, with the product as a single atom
  have hfacts : t ≤ p * q ∧ p * q + 1 ≤ t + p := by
    generalize hm : p * q = m at hq1 ⊢
    omega
  have hp' : (0 : ℚ) < (p : ℚ) := by exact_mod_cast hp
  symm
  rw [Int.ceil_eq_iff]
  constructor
  · push_cast
    rw [lt_div_iff₀ hp']
    have hexp : ((q : ℚ) - 1) * (p : ℚ) = (p : ℚ) * (q : ℚ) - (p : ℚ) := by ring
    rw [hexp]
    have hB : ((p : ℚ)) * (q : ℚ) + 1 ≤ (t : ℚ) + (p : ℚ) := by
      exact_mod_cast hfacts.2
    linarith
  · push_cast
    rw [div_le_iff₀ hp']
    have hA : (t : ℚ) ≤ (p : ℚ) * (q : ℚ) := by exact_mod_cast hfacts.1
    linarith [hA]

/-- C6: for every list request, `page` is clamped to at least 1 and
`page_size` into `[1,100]` (never rejected), the listing slice starts
at offset `(page-1)*page_size` over the rows filtered by the same
predicate the count uses, and `total_pages = ⌈total / page_size⌉`. -/
theorem getFilesHandler_pagination (db : List FileRow) (user_id : String)
    (query : FileQuery) :
    1 ≤ (getFilesHandler db user_id query).page ∧
    1 ≤ (getFilesHandler db user_id query).page_size ∧
    (getFilesHandler db user_id query).page_size ≤ 100 ∧
    (getFilesHandler db user_id query).files =
      (((db.filter (rowMatches user_id query.q)).mergeSort
          (rowLE query.sort query.direction)).drop
        (((getFilesHandler db user_id query).page - 1) *
          (getFilesHandler db user_id query).page_size).toNat).take
        (getFilesHandler db user_id query).page_size.toNat ∧
    (getFilesHandler db user_id query).total =
      ((db.filter (rowMatches user_id query.q)).length : Int) ∧
    (getFilesHandler db user_id query).total_pages =
      ⌈((getFilesHandler db user_id query).total : ℚ) /
        ((getFilesHandler db user_id query).page_size : ℚ)⌉ := by
  refine ⟨le_max_right _ _,
    le_min (le_max_right _ _) (by norm_num),
    min_le_right _ _, rfl, rfl, ?_⟩
  exact totalPagesOf_eq_ceil _ _ (Int.natCast_nonneg _)
    (le_min (le_max_right _ _) (by norm_num))

/-- `upload_file` when the field loop fails: the loop's error and blob
store are returned and nothing is inserted. -/
theorem uploadFile_of_runFields_error (user_id created_at : String)
    (dbOk : Bool) (disk₀ : Disk) (fields : List UploadField)
    (e : FileError) (d : Disk)
    (hrun : runFields user_id ⟨none, none, none, 0, disk₀⟩ fields =
      .error (e, d)) :
    uploadFile user_id created_at dbOk disk₀ fields = ⟨.error e, d, []⟩ := by
  unfold uploadFile
  rw [hrun]

/-- `upload_file` when the field loop succeeds: the final checks and
insert, expressed over the loop's final state. -/
theorem uploadFile_of_runFields_ok (user_id created_at : String)
    (dbOk : Bool) (disk₀ : Disk) (fields : List UploadField) (s : UpState)
    (hrun : runFields user_id ⟨none, none, none, 0, disk₀⟩ fields = .ok s) :
    uploadFile user_id created_at dbOk disk₀ fields =
      match s.metadata, s.file_id, s.storage_path with
      | some m, some fid, some sp =>
        if dbOk then
          ⟨.ok ⟨fid, user_id, m.original_name, m.mime_type,
              (s.actual_size : Int), sp, created_at⟩, s.disk,
            [⟨fid, user_id, m.original_name, m.mime_type,
              (s.actual_size : Int), sp, created_at⟩]⟩
        else ⟨.error .databaseError, s.disk, []⟩
      | _, _, _ => ⟨.error .invalidMetadata, s.disk, []⟩ := by
  unfold uploadFile
  rw [hrun]

/-- C1 counterexample: with the `remove_file` cleanup failing — its
error is deliberately ignored by the source's `let _ = ...` — an upload
one byte over the cap still fails with the file-too-large error and
inserts no row, but the partial blob remains on disk: the claim's
"deletes the partial blob" does not hold on this execution. -/
theorem uploadFile_cap_counterexample :
    (uploadFile "u" "t" true []
        [.meta (some ⟨"a", "b", 0, "none"⟩),
          .file "g" true true false
            (okEvents [List.replicate maxFileSize 0, [7]]) true]).result =
      .error .invalidMetadata ∧
    (uploadFile "u" "t" true []
        [.meta (some ⟨"a", "b", 0, "none"⟩),
          .file "g" true true false
            (okEvents [List.replicate maxFileSize 0, [7]]) true]).rows = [] ∧
    fsLookup (uploadFile "u" "t" true []
        [.meta (some ⟨"a", "b", 0, "none"⟩),
          .file "g" true true false
            (okEvents [List.replicate maxFileSize 0, [7]]) true]).disk
      ("u" ++ "/" ++ "g" ++ ".bin") ≠ none := by
  obtain ⟨disk', hout, _, hsome⟩ := uploadFile_overflow "u" "t" "g"
    ⟨"a", "b", 0, "none"⟩ true false true []
    [List.replicate maxFileSize 0, [7]] [] (by simp [sumLen])
  rw [List.append_nil] at hout
  rw [hout]
  obtain ⟨c, hc⟩ := hsome rfl
  have hc' : fsLookup disk' "u/g.bin" = some c := hc
  exact ⟨rfl, rfl, by simp [hc']⟩

/-- C1 (amended): an upload whose binary field exceeds the 100 MiB cap
is detected incrementally as chunks arrive (events after the failing
chunk are never consumed), the write is aborted, no File row is
inserted, the request fails with the file-too-large condition
(`InvalidMetadata`), distinct from the generic `StorageError`, and the
partial blob is deleted whenever the (error-ignored) `remove_file`
cleanup succeeds; an upload of exactly the cap size succeeds. -/
theorem uploadFile_cap_enforced (user_id created_at genId : String)
    (m : FileMetadata) (dbOk removeOk flushOk : Bool) (disk₀ : Disk)
    (chunks : List Bytes) (post : List ChunkEv) :
    (maxFileSize < sumLen chunks →
      (uploadFile user_id created_at dbOk disk₀
          [.meta (some m),
            .file genId true true removeOk (okEvents chunks ++ post) flushOk]).result =
        .error .invalidMetadata ∧
      FileError.invalidMetadata ≠ FileError.storageError ∧
      (uploadFile user_id created_at dbOk disk₀
          [.meta (some m),
            .file genId true true removeOk (okEvents chunks ++ post) flushOk]).rows = [] ∧
      (removeOk = true →
        fsLookup (uploadFile user_id created_at dbOk disk₀
            [.meta (some m),
              .file genId true true removeOk (okEvents chunks ++ post) flushOk]).disk
          (user_id ++ "/" ++ genId ++ ".bin") = none)) ∧
    (sumLen chunks = maxFileSize →
      ∃ row,
        (uploadFile user_id created_at true disk₀
            [.meta (some m),
              .file genId true true removeOk (okEvents chunks) true]).result =
          .ok row ∧
        row.size_bytes = (maxFileSize : Int)) := by
  constructor
  · intro hgt
    obtain ⟨disk', hout, hnone, _⟩ := uploadFile_overflow user_id created_at genId
      m dbOk removeOk flushOk disk₀ chunks post hgt
    rw [hout]
    exact ⟨rfl, by decide, rfl, hnone⟩
  · intro heq
    obtain ⟨disk', hout, _⟩ := uploadFile_within_cap user_id created_at genId m
      removeOk disk₀ chunks (by omega)
    refine ⟨⟨genId, user_id, m.original_name, m.mime_type, (sumLen chunks : Int),
      user_id ++ "/" ++ genId ++ ".bin", created_at⟩, by rw [hout], ?_⟩
    show ((sumLen chunks : Nat) : Int) = (maxFileSize : Int)
    exact_mod_cast congrArg Nat.cast heq

/-- C1 witness: with the cleanup succeeding, a single chunk one byte
over the cap is rejected as file-too-large and its partial blob is
gone; a single chunk of exactly the cap size is stored. -/
theorem uploadFile_cap_enforced_witness :
    (uploadFile "u" "t" true []
        [.meta (some ⟨"a", "b", 0, "none"⟩),
          .file "g" true true true
            (okEvents [List.replicate (maxFileSize + 1) 0] ++ []) true]).result =
      .error .invalidMetadata ∧
    fsLookup (uploadFile "u" "t" true []
        [.meta (some ⟨"a", "b", 0, "none"⟩),
          .file "g" true true true
            (okEvents [List.replicate (maxFileSize + 1) 0] ++ []) true]).disk
      ("u" ++ "/" ++ "g" ++ ".bin") = none ∧
    ∃ row,
      (uploadFile "u" "t" true []
          [.meta (some ⟨"a", "b", 0, "none"⟩),
            .file "g" true true true
              (okEvents [List.replicate maxFileSize 0]) true]).result =
        .ok row ∧ row.size_bytes = (maxFileSize : Int) := by
  have h1 := (uploadFile_cap_enforced "u" "t" "g" ⟨"a", "b", 0, "none"⟩
    true true true [] [List.replicate (maxFileSize + 1) 0] []).1 (by simp [sumLen])
  have h2 := (uploadFile_cap_enforced "u" "t" "g" ⟨"a", "b", 0, "none"⟩
    true true true [] [List.replicate maxFileSize 0] []).2 (by simp [sumLen])
  exact ⟨h1.1, h1.2.2.2 rfl, h2⟩

/-- C2: for every successful upload, the `size_bytes` recorded in the
created File row equals the number of bytes actually received in the
binary multipart field, regardless of the declared size in the
client-supplied metadata. -/
theorem uploadFile_records_actual_size (user_id created_at genId : String)
    (m : FileMetadata) (removeOk : Bool) (disk₀ : Disk) (chunks : List Bytes)
    (hle : sumLen chunks ≤ maxFileSize) :
    ∃ row,
      (uploadFile user_id created_at true disk₀
          [.meta (some m),
            .file genId true true removeOk (okEvents chunks) true]).result =
        .ok row ∧
      (uploadFile user_id created_at true disk₀
          [.meta (some m),
            .file genId true true removeOk (okEvents chunks) true]).rows =
        [row] ∧
      row.size_bytes = (sumLen chunks : Int) := by
  obtain ⟨disk', hout, _⟩ :=
    uploadFile_within_cap user_id created_at genId m removeOk disk₀ chunks hle
  exact ⟨_, by rw [hout], by rw [hout], rfl⟩

/-- C2 witness: three bytes received under a metadata field declaring
999 bytes are recorded as three bytes. -/
theorem uploadFile_records_actual_size_witness :
    ∃ row,
      (uploadFile "u" "t" true []
          [.meta (some ⟨"a.txt", "text/plain", 999, "none"⟩),
            .file "g" true true true (okEvents [[1, 2, 3]]) true]).result =
        .ok row ∧
      (uploadFile "u" "t" true []
          [.meta (some ⟨"a.txt", "text/plain", 999, "none"⟩),
            .file "g" true true true (okEvents [[1, 2, 3]]) true]).rows =
        [row] ∧
      row.size_bytes = (sumLen [[1, 2, 3]] : Int) :=
  uploadFile_records_actual_size "u" "t" "g" ⟨"a.txt", "text/plain", 999, "none"⟩
    true [] [[1, 2, 3]] (by norm_num [sumLen, maxFileSize])

/-- C4: the File row is inserted only after the blob is fully written
and flushed — any failing request leaves no row, and any inserted row's
blob is on disk with content length equal to the recorded size. -/
theorem uploadFile_no_orphan_row (user_id created_at : String) (dbOk : Bool)
    (disk₀ : Disk) (fields : List UploadField) :
    (∀ e, (uploadFile user_id created_at dbOk disk₀ fields).result = .error e →
      (uploadFile user_id created_at dbOk disk₀ fields).rows = []) ∧
    (∀ row, row ∈ (uploadFile user_id created_at dbOk disk₀ fields).rows →
      (uploadFile user_id created_at dbOk disk₀ fields).result = .ok row ∧
      ∃ content,
        fsLookup (uploadFile user_id created_at dbOk disk₀ fields).disk
          row.storage_path = some content ∧
        (content.length : Int) = row.size_bytes) := by
  have hinit : diskConsistent ⟨none, none, none, 0, disk₀⟩ := by
    intro p hp
    simp at hp
  cases hrun : runFields user_id ⟨none, none, none, 0, disk₀⟩ fields with
  | error e =>
    obtain ⟨e', d⟩ := e
    rw [uploadFile_of_runFields_error user_id created_at dbOk disk₀ fields e' d hrun]
    exact ⟨fun _ _ => rfl, fun row hrow => absurd hrow (by simp)⟩
  | ok s =>
    have hcons := runFields_preserves user_id fields _ s hinit hrun
    rw [uploadFile_of_runFields_ok user_id created_at dbOk disk₀ fields s hrun]
    cases hm : s.metadata with
    | none => exact ⟨fun _ _ => rfl, fun row hrow => absurd hrow (by simp)⟩
    | some m =>
      cases hf : s.file_id with
      | none => exact ⟨fun _ _ => rfl, fun row hrow => absurd hrow (by simp)⟩
      | some fid =>
        cases hsp : s.storage_path with
        | none => exact ⟨fun _ _ => rfl, fun row hrow => absurd hrow (by simp)⟩
        | some sp =>
          obtain ⟨c, hc, hclen⟩ := hcons sp hsp
          cases dbOk with
          | false => exact ⟨fun _ _ => rfl, fun row hrow => absurd hrow (by simp)⟩
          | true =>
            constructor
            · intro e h
              simp at h
            · intro row hrow
              have hrow' : row = ⟨fid, user_id, m.original_name, m.mime_type,
                  (s.actual_size : Int), sp, created_at⟩ := by
                simpa using hrow
              subst hrow'
              refine ⟨rfl, c, hc, ?_⟩
              exact_mod_cast congrArg Nat.cast hclen

/-- C4 witness: a request whose metadata fails to parse creates no row;
a clean one-byte upload yields the row only with its blob on disk. -/
theorem uploadFile_no_orphan_row_witness :
    (uploadFile "u" "t" true [] [.meta none]).rows = [] ∧
    (uploadFile "u" "t" true []
        [.meta (some ⟨"a", "b", 7, "e"⟩),
          .file "g" true true true (okEvents [[1]]) true]).result =
      .ok ⟨"g", "u", "a", "b", 1, "u" ++ "/" ++ "g" ++ ".bin", "t"⟩ := by
  have h1 := (uploadFile_no_orphan_row "u" "t" true [] [.meta none]).1
    FileError.invalidMetadata rfl
  have h2 := (uploadFile_no_orphan_row "u" "t" true []
    [.meta (some ⟨"a", "b", 7, "e"⟩),
      .file "g" true true true (okEvents [[1]]) true]).2
    ⟨"g", "u", "a", "b", 1, "u" ++ "/" ++ "g" ++ ".bin", "t"⟩ (by decide)
  exact ⟨h1, h2.1⟩

end Trusty
